import Mathlib

/-!
Shallow embedding of `voc/java/methods.py`: the `method_info` record codec
(`Method.__init__`, `Method.access_flags`, `Method.attributes_count`,
`Method.read`, `Method.write`).

Byte streams are `List Nat`, one element per byte; multi-byte fields are
big-endian fixed-width, as produced and consumed by the reader's and
writer's `read_u2` / `write_u2` primitives.  Fallible operations return
`Option` / `Except`: a Python exception is `none` / `.error`.

The constant pool object, the `Utf8` wrapper and the `Attribute` class live
outside the analyzed source (`constants.py`, `attributes.py`, the class-file
reader/writer); they are modelled from the spec at their interface boundary,
as marked on the corresponding definitions below.
-/

namespace Voc

/-- Table 4.5 method access and property flag constants of `methods.py`. -/
def ACC_PUBLIC : Nat := 0x0001

def ACC_PRIVATE : Nat := 0x0002

def ACC_PROTECTED : Nat := 0x0004

def ACC_STATIC : Nat := 0x0008

def ACC_FINAL : Nat := 0x0010

def ACC_SYNCHRONIZED : Nat := 0x0020

def ACC_BRIDGE : Nat := 0x0040

def ACC_VARARGS : Nat := 0x0080

def ACC_NATIVE : Nat := 0x0100

def ACC_ABSTRACT : Nat := 0x0400

def ACC_STRICT : Nat := 0x0800

def ACC_SYNTHETIC : Nat := 0x1000

/-- Modelled from the spec: a constant-pool entry is either a UTF-8 string
entry (the `Utf8` class of `constants.py`, compared by its string value) or
some other kind of entry; the pool storage engine itself is outside the
analyzed source. -/
inductive PoolEntry : Type
  | utf8 (s : String) : PoolEntry
  | other : PoolEntry
deriving DecidableEq

/-- Modelled from the spec: the constant pool as visible to this codec is an
indexed table of entries (`stringAt` / `indexOf` interface of spec §6). -/
abbrev ConstantPool := List PoolEntry

/-- Modelled from the spec: `stringAt(index)` — resolving a pool index to a
string, as done by `reader.constant_pool[i].bytes.decode('utf8')`; fails
(`none`, a LookupError) if the index is absent or the entry is not a UTF-8
string entry. -/
def poolString (pool : ConstantPool) (i : Nat) : Option String :=
  match pool[i]? with
  | some (PoolEntry.utf8 s) => some s
  | _ => none

/-- Modelled from the spec: `indexOf(stringValue)` — the writer-side pool
lookup `writer.constant_pool.index(...)` returning the index of the first
UTF-8 entry holding the given string; fails (`none`) if absent. -/
def poolIndexOf : ConstantPool → String → Option Nat
  | [], _ => none
  | PoolEntry.utf8 t :: rest, s =>
      if t = s then some 0 else (poolIndexOf rest s).map (· + 1)
  | PoolEntry.other :: rest, s => (poolIndexOf rest s).map (· + 1)

/-- Reader primitive `read_u2`: two bytes, big-endian; fails on truncation. -/
def readU2 : List Nat → Option (Nat × List Nat)
  | b0 :: b1 :: rest => some (b0 * 256 + b1, rest)
  | _ => none

/-- Reader primitive `read_u4`: four bytes, big-endian; fails on truncation. -/
def readU4 : List Nat → Option (Nat × List Nat)
  | b0 :: b1 :: b2 :: b3 :: rest =>
      some (((b0 * 256 + b1) * 256 + b2) * 256 + b3, rest)
  | _ => none

/-- Writer primitive `write_u2`: two bytes, big-endian. -/
def writeU2 (n : Nat) : List Nat := [n / 256 % 256, n % 256]

/-- Writer primitive `write_u4`: four bytes, big-endian. -/
def writeU4 (n : Nat) : List Nat :=
  [n / 16777216 % 256, n / 65536 % 256, n / 256 % 256, n % 256]

/-- Modelled from the spec: an Attribute record (`attributes.py` is outside
the analyzed source).  Per spec §6 it is an opaque, self-describing
sub-record in the generic `attribute_info` layout: a u2 name index, a u4
payload length, and that many raw payload bytes, never inspected by this
codec. -/
structure Attribute : Type where
  nameIndex : Nat
  info : List Nat
deriving DecidableEq

/-- Modelled from the spec: `Attribute.read` — consume one self-describing
attribute record from the stream (u2 name index, u4 length, `length` raw
bytes); fails on truncation. -/
def Attribute.read (b : List Nat) : Option (Attribute × List Nat) :=
  match readU2 b with
  | none => none
  | some (nameIndex, b) =>
    match readU4 b with
    | none => none
    | some (len, b) =>
      if len ≤ b.length then some (⟨nameIndex, b.take len⟩, b.drop len)
      else none

/-- Modelled from the spec: `attribute.write(writer)` — emit the attribute
back in the same generic layout it was read in. -/
def Attribute.write (a : Attribute) : List Nat :=
  writeU2 a.nameIndex ++ writeU4 a.info.length ++ a.info

/-- The `method_info` record of `methods.py` (`class Method`): name and
descriptor strings, twelve boolean access flags, and the ordered attribute
list. -/
structure Method : Type where
  name : String
  descriptor : String
  public : Bool
  «private» : Bool
  «protected» : Bool
  static : Bool
  final : Bool
  synchronized : Bool
  bridge : Bool
  varargs : Bool
  native : Bool
  abstract : Bool
  strict : Bool
  synthetic : Bool
  attributes : List Attribute
deriving DecidableEq

/-- The constructor `Method.__init__` (lines 38–138): stores name and
descriptor, normalizes the three visibility flags by priority (`private`
clears `protected` and `public`; `protected`, when not private, clears
`public`; otherwise `public` is set true — the `public` argument itself is
never consulted), copies the nine other flags, and defaults the attribute
list to empty. -/
def Method.init (name descriptor : String)
    (public «private» «protected» static final synchronized bridge varargs
      native abstract strict synthetic : Bool)
    (attributes : List Attribute) : Method :=
  if «private» then
    { name := name, descriptor := descriptor,
      public := false, «private» := true, «protected» := false,
      static := static, final := final, synchronized := synchronized,
      bridge := bridge, varargs := varargs, native := native,
      abstract := abstract, strict := strict, synthetic := synthetic,
      attributes := attributes }
  else if «protected» then
    { name := name, descriptor := descriptor,
      public := false, «private» := false, «protected» := true,
      static := static, final := final, synchronized := synchronized,
      bridge := bridge, varargs := varargs, native := native,
      abstract := abstract, strict := strict, synthetic := synthetic,
      attributes := attributes }
  else
    { name := name, descriptor := descriptor,
      public := true, «private» := false, «protected» := false,
      static := static, final := final, synchronized := synchronized,
      bridge := bridge, varargs := varargs, native := native,
      abstract := abstract, strict := strict, synthetic := synthetic,
      attributes := attributes }

/-- The `access_flags` property (lines 219–248): bitwise OR of the flag
constant of every flag that is currently true. -/
def Method.access_flags (m : Method) : Nat :=
  (if m.public then ACC_PUBLIC else 0) |||
  (if m.«private» then ACC_PRIVATE else 0) |||
  (if m.«protected» then ACC_PROTECTED else 0) |||
  (if m.static then ACC_STATIC else 0) |||
  (if m.final then ACC_FINAL else 0) |||
  (if m.synchronized then ACC_SYNCHRONIZED else 0) |||
  (if m.bridge then ACC_BRIDGE else 0) |||
  (if m.varargs then ACC_VARARGS else 0) |||
  (if m.native then ACC_NATIVE else 0) |||
  (if m.abstract then ACC_ABSTRACT else 0) |||
  (if m.strict then ACC_STRICT else 0) |||
  (if m.synthetic then ACC_SYNTHETIC else 0)

/-- The `attributes_count` property (lines 215–217): always re-derived as
the current length of the attribute list. -/
def Method.attributes_count (m : Method) : Nat := m.attributes.length

/-- Errors a `Method.read` can raise: stream truncation, or a pool index
that does not resolve to a UTF-8 string entry (a LookupError in the
source). -/
inductive ReadError : Type
  | truncated : ReadError
  | invalidReference : ReadError
deriving DecidableEq

deriving instance DecidableEq for Except

/-- The flag table of the dump branch of `Method.read` (lines 154–169), in
its canonical order. -/
def flagTable : List (String × Nat) :=
  [("public", ACC_PUBLIC), ("private", ACC_PRIVATE),
   ("protected", ACC_PROTECTED), ("static", ACC_STATIC),
   ("final", ACC_FINAL), ("synchronized", ACC_SYNCHRONIZED),
   ("bridge", ACC_BRIDGE), ("varargs", ACC_VARARGS),
   ("native", ACC_NATIVE), ("abstract", ACC_ABSTRACT),
   ("strict", ACC_STRICT), ("synthetic", ACC_SYNTHETIC)]

/-- The `access_description` string of the dump branch (lines 154–170):
comma-joined names of the flags whose bit is set, in table order. -/
def accessDescription (access_flags : Nat) : String :=
  String.intercalate ", "
    ((flagTable.filter (fun p => access_flags &&& p.2 != 0)).map (fun p => p.1))

/-- One lower-case hexadecimal digit, for the `%04x` rendering. -/
def hexDigit (n : Nat) : Char :=
  if n < 10 then Char.ofNat (48 + n) else Char.ofNat (97 + n - 10)

/-- The `%04x` rendering of a 16-bit value used by the dump branch. -/
def hex4 (n : Nat) : String :=
  String.mk [hexDigit (n / 4096 % 16), hexDigit (n / 256 % 16),
    hexDigit (n / 16 % 16), hexDigit (n % 16)]

/-- The indentation prefix `"    " * dump` of the dump branch. -/
def indentOf (d : Nat) : String := String.join (List.replicate d "    ")

/-- The three console lines printed by the dump branch of `Method.read`
(lines 151–173), captured as strings: the method header, the flag word with
its description (omitted when no flag is set, per the conditional
expression of line 171), and the attribute count. -/
def dumpLines (d : Nat) (name descriptor : String)
    (access_flags attributes_count : Nat) : List String :=
  let access_description := accessDescription access_flags
  [indentOf d ++ " " ++ "Method " ++ name ++ " " ++ descriptor,
   indentOf d ++ " " ++
     (if access_description != "" then
       "    Flags: 0x" ++ hex4 access_flags ++ " (" ++ access_description ++ ")"
     else ""),
   indentOf d ++ " " ++ "    Attributes: (" ++ toString attributes_count ++ ")"]

/-- The attribute-reading loop of `Method.read` (lines 175–179): delegate
to `Attribute.read` exactly `attributes_count` times, collecting the
results in stream order.  The dump value is threaded through as in the
source (`dump + 2` there); the modelled attribute reader, per spec §4.5,
never lets it alter its result, so it is carried but not consumed. -/
def readAttributes (dump : Option Nat) :
    Nat → List Nat → Option (List Attribute × List Nat)
  | 0, b => some ([], b)
  | Nat.succ n, b =>
    match Attribute.read b with
    | none => none
    | some (a, b) =>
      match readAttributes dump n b with
      | none => none
      | some (attrs, b) => some (a :: attrs, b)

/-- The record construction at the end of `Method.read` (lines 181–197):
decode each flag by testing its bit of the flag word, and hand everything
to the constructor. -/
def decodeMethod (name descriptor : String) (access_flags : Nat)
    (attributes : List Attribute) : Method :=
  Method.init name descriptor
    (access_flags &&& ACC_PUBLIC != 0)
    (access_flags &&& ACC_PRIVATE != 0)
    (access_flags &&& ACC_PROTECTED != 0)
    (access_flags &&& ACC_STATIC != 0)
    (access_flags &&& ACC_FINAL != 0)
    (access_flags &&& ACC_SYNCHRONIZED != 0)
    (access_flags &&& ACC_BRIDGE != 0)
    (access_flags &&& ACC_VARARGS != 0)
    (access_flags &&& ACC_NATIVE != 0)
    (access_flags &&& ACC_ABSTRACT != 0)
    (access_flags &&& ACC_STRICT != 0)
    (access_flags &&& ACC_SYNTHETIC != 0)
    attributes

/-- `Method.read` (lines 143–197): read the u2 flag word, resolve the u2
name and descriptor pool indices to strings (failing with a LookupError —
`invalidReference` — before consuming anything further if an index does not
resolve), read the u2 attribute count, optionally render the dump lines
(`if dump:`, so a dump value of 0 prints nothing), then read exactly
`attributes_count` attributes and build the record.  The result carries the
decoded record, the dump output, and the unconsumed rest of the stream. -/
def Method.read (pool : ConstantPool) (dump : Option Nat) (b : List Nat) :
    Except ReadError (Method × List String × List Nat) :=
  match readU2 b with
  | none => Except.error ReadError.truncated
  | some (access_flags, b) =>
    match readU2 b with
    | none => Except.error ReadError.truncated
    | some (ni, b) =>
      match poolString pool ni with
      | none => Except.error ReadError.invalidReference
      | some name =>
        match readU2 b with
        | none => Except.error ReadError.truncated
        | some (di, b) =>
          match poolString pool di with
          | none => Except.error ReadError.invalidReference
          | some descriptor =>
            match readU2 b with
            | none => Except.error ReadError.truncated
            | some (attributes_count, b) =>
              let out : List String :=
                match dump with
                | none => []
                | some d =>
                  if d != 0 then
                    dumpLines d name descriptor access_flags attributes_count
                  else []
              match readAttributes (dump.map (· + 2)) attributes_count b with
              | none => Except.error ReadError.truncated
              | some (attributes, b) =>
                Except.ok
                  (decodeMethod name descriptor access_flags attributes,
                   out, b)

/-- `Method.write` (lines 199–206): emit the re-packed flag word, the pool
indices of the name and the descriptor (failing if a string was never
interned), the attribute count, then each attribute in list order. -/
def Method.write (pool : ConstantPool) (m : Method) : Option (List Nat) :=
  match poolIndexOf pool m.name with
  | none => none
  | some ni =>
    match poolIndexOf pool m.descriptor with
    | none => none
    | some di =>
      some (writeU2 m.access_flags ++ writeU2 ni ++ writeU2 di ++
        writeU2 m.attributes_count ++
        (m.attributes.map Attribute.write).flatten)

end Voc

namespace Voc

/-- Spec-side per-bit reading of the encode contract (§4.1 of the spec):
bit 0 is `public`, 1 `private`, 2 `protected`, 3 `static`, 4 `final`,
5 `synchronized`, 6 `bridge`, 7 `varargs`, 8 `native`, 10 `abstract`,
11 `strict`, 12 `synthetic`, and every other bit is zero.  Stated from the
spec's words, to be compared with the source's `Method.access_flags`. -/
def accessFlagsSpecBit (m : Method) (i : Nat) : Bool :=
  if i = 0 then m.public
  else if i = 1 then m.«private»
  else if i = 2 then m.«protected»
  else if i = 3 then m.static
  else if i = 4 then m.final
  else if i = 5 then m.synchronized
  else if i = 6 then m.bridge
  else if i = 7 then m.varargs
  else if i = 8 then m.native
  else if i = 10 then m.abstract
  else if i = 11 then m.strict
  else if i = 12 then m.synthetic
  else false

theorem testBit_if (b : Bool) (n i : Nat) :
    (if b then n else 0).testBit i = (b && n.testBit i) := by
  cases b <;> simp

theorem testBit_access_flags (m : Method) (i : Nat) :
    m.access_flags.testBit i = accessFlagsSpecBit m i := by
  have e0 : ACC_PUBLIC = 2 ^ 0 := rfl
  have e1 : ACC_PRIVATE = 2 ^ 1 := rfl
  have e2 : ACC_PROTECTED = 2 ^ 2 := rfl
  have e3 : ACC_STATIC = 2 ^ 3 := rfl
  have e4 : ACC_FINAL = 2 ^ 4 := rfl
  have e5 : ACC_SYNCHRONIZED = 2 ^ 5 := rfl
  have e6 : ACC_BRIDGE = 2 ^ 6 := rfl
  have e7 : ACC_VARARGS = 2 ^ 7 := rfl
  have e8 : ACC_NATIVE = 2 ^ 8 := rfl
  have e10 : ACC_ABSTRACT = 2 ^ 10 := rfl
  have e11 : ACC_STRICT = 2 ^ 11 := rfl
  have e12 : ACC_SYNTHETIC = 2 ^ 12 := rfl
  simp only [Method.access_flags, e0, e1, e2, e3, e4, e5, e6, e7, e8, e10,
    e11, e12, Nat.testBit_lor, testBit_if, Nat.testBit_two_pow]
  rcases Nat.lt_or_ge i 13 with hi | hi
  · interval_cases i <;> simp [accessFlagsSpecBit]
  · have h0 : (0 : Nat) ≠ i := by omega
    have h1 : (1 : Nat) ≠ i := by omega
    have h2 : (2 : Nat) ≠ i := by omega
    have h3 : (3 : Nat) ≠ i := by omega
    have h4 : (4 : Nat) ≠ i := by omega
    have h5 : (5 : Nat) ≠ i := by omega
    have h6 : (6 : Nat) ≠ i := by omega
    have h7 : (7 : Nat) ≠ i := by omega
    have h8 : (8 : Nat) ≠ i := by omega
    have h10 : (10 : Nat) ≠ i := by omega
    have h11 : (11 : Nat) ≠ i := by omega
    have h12 : (12 : Nat) ≠ i := by omega
    simp [accessFlagsSpecBit, h0, h1, h2, h3, h4, h5, h6, h7, h8, h10, h11,
      h12, h0.symm, h1.symm, h2.symm, h3.symm, h4.symm, h5.symm, h6.symm,
      h7.symm, h8.symm, h10.symm, h11.symm, h12.symm]

theorem and_two_pow_ne (f k : Nat) : (f &&& 2 ^ k != 0) = f.testBit k := by
  rw [Nat.and_two_pow]
  cases h : f.testBit k
  · simp
  · simp [Nat.pos_iff_ne_zero, Nat.pos_pow_of_pos]

theorem decodeMethod_fields (name descriptor : String) (f : Nat)
    (attrs : List Attribute) :
    (decodeMethod name descriptor f attrs).name = name ∧
    (decodeMethod name descriptor f attrs).descriptor = descriptor ∧
    (decodeMethod name descriptor f attrs).public =
      (!f.testBit 1 && !f.testBit 2) ∧
    (decodeMethod name descriptor f attrs).«private» = f.testBit 1 ∧
    (decodeMethod name descriptor f attrs).«protected» =
      (!f.testBit 1 && f.testBit 2) ∧
    (decodeMethod name descriptor f attrs).static = f.testBit 3 ∧
    (decodeMethod name descriptor f attrs).final = f.testBit 4 ∧
    (decodeMethod name descriptor f attrs).synchronized = f.testBit 5 ∧
    (decodeMethod name descriptor f attrs).bridge = f.testBit 6 ∧
    (decodeMethod name descriptor f attrs).varargs = f.testBit 7 ∧
    (decodeMethod name descriptor f attrs).native = f.testBit 8 ∧
    (decodeMethod name descriptor f attrs).abstract = f.testBit 10 ∧
    (decodeMethod name descriptor f attrs).strict = f.testBit 11 ∧
    (decodeMethod name descriptor f attrs).synthetic = f.testBit 12 ∧
    (decodeMethod name descriptor f attrs).attributes = attrs := by
  have e0 : ACC_PUBLIC = 2 ^ 0 := rfl
  have e1 : ACC_PRIVATE = 2 ^ 1 := rfl
  have e2 : ACC_PROTECTED = 2 ^ 2 := rfl
  have e3 : ACC_STATIC = 2 ^ 3 := rfl
  have e4 : ACC_FINAL = 2 ^ 4 := rfl
  have e5 : ACC_SYNCHRONIZED = 2 ^ 5 := rfl
  have e6 : ACC_BRIDGE = 2 ^ 6 := rfl
  have e7 : ACC_VARARGS = 2 ^ 7 := rfl
  have e8 : ACC_NATIVE = 2 ^ 8 := rfl
  have e10 : ACC_ABSTRACT = 2 ^ 10 := rfl
  have e11 : ACC_STRICT = 2 ^ 11 := rfl
  have e12 : ACC_SYNTHETIC = 2 ^ 12 := rfl
  simp only [decodeMethod, Method.init, e0, e1, e2, e3, e4, e5, e6, e7, e8,
    e10, e11, e12, and_two_pow_ne]
  cases h1 : f.testBit 1 <;> cases h2 : f.testBit 2 <;> simp

end Voc

namespace Voc

theorem access_flags_decodeMethod (name descriptor : String) (f : Nat)
    (attrs : List Attribute) (honly : f &&& 7679 = f)
    (hvis : (f.testBit 0).toNat + (f.testBit 1).toNat +
      (f.testBit 2).toNat = 1) :
    (decodeMethod name descriptor f attrs).access_flags = f := by
  obtain ⟨-, -, hpb, hpv, hpt, hst, hfi, hsy, hbr, hva, hna, hab, hstr,
    hsyn, -⟩ := decodeMethod_fields name descriptor f attrs
  apply Nat.eq_of_testBit_eq
  intro i
  rw [testBit_access_flags]
  rcases Nat.lt_or_ge i 13 with hi | hi
  · have h9 : f.testBit 9 = false := by
      have h79 : Nat.testBit 7679 9 = false := by decide
      rw [← honly, Nat.testBit_and, h79, Bool.and_false]
    interval_cases i <;>
      simp only [accessFlagsSpecBit, hpb, hpv, hpt, hst,
        hfi, hsy, hbr, hva, hna, hab, hstr, hsyn, h9] <;>
      first
      | rfl
      | (cases hb0 : f.testBit 0 <;> cases hb1 : f.testBit 1 <;>
          cases hb2 : f.testBit 2 <;> simp_all)
  · have hlt : f < 2 ^ i := by
      have hle : f ≤ 7679 := by
        calc f = f &&& 7679 := honly.symm
        _ ≤ 7679 := Nat.and_le_right
      have h13 : (2 : Nat) ^ 13 ≤ 2 ^ i := Nat.pow_le_pow_right (by omega) hi
      omega
    rw [Nat.testBit_lt_two_pow hlt]
    have h0 : ¬(i = 0) := by omega
    have h1 : ¬(i = 1) := by omega
    have h2 : ¬(i = 2) := by omega
    have h3 : ¬(i = 3) := by omega
    have h4 : ¬(i = 4) := by omega
    have h5 : ¬(i = 5) := by omega
    have h6 : ¬(i = 6) := by omega
    have h7 : ¬(i = 7) := by omega
    have h8 : ¬(i = 8) := by omega
    have h10 : ¬(i = 10) := by omega
    have h11 : ¬(i = 11) := by omega
    have h12 : ¬(i = 12) := by omega
    simp [accessFlagsSpecBit, h0, h1, h2, h3, h4, h5, h6, h7, h8, h10, h11,
      h12]

theorem writeU2_readU2 (b0 b1 : Nat) (h0 : b0 < 256) (h1 : b1 < 256) :
    writeU2 (b0 * 256 + b1) = [b0, b1] := by
  simp only [writeU2, List.cons.injEq, and_true]
  constructor <;> omega

theorem writeU4_readU4 (b0 b1 b2 b3 : Nat) (h0 : b0 < 256) (h1 : b1 < 256)
    (h2 : b2 < 256) (h3 : b3 < 256) :
    writeU4 (((b0 * 256 + b1) * 256 + b2) * 256 + b3) = [b0, b1, b2, b3] := by
  simp only [writeU4, List.cons.injEq, and_true]
  refine ⟨by omega, by omega, by omega, by omega⟩

theorem Attribute.read_write (b : List Nat) (a : Attribute) (rest : List Nat)
    (hb : ∀ x ∈ b, x < 256) (h : Attribute.read b = some (a, rest)) :
    Attribute.write a ++ rest = b := by
  rcases b with _ | ⟨x0, _ | ⟨x1, _ | ⟨x2, _ | ⟨x3, _ | ⟨x4, _ | ⟨x5, t⟩⟩⟩⟩⟩⟩ <;>
    simp only [Attribute.read, readU2, readU4] at h <;>
    try exact Option.noConfusion h
  split at h
  · rename_i hlen
    injection h with h'
    injection h' with ha hr
    subst ha
    subst hr
    have hx0 : x0 < 256 := hb x0 (by simp)
    have hx1 : x1 < 256 := hb x1 (by simp)
    have hx2 : x2 < 256 := hb x2 (by simp)
    have hx3 : x3 < 256 := hb x3 (by simp)
    have hx4 : x4 < 256 := hb x4 (by simp)
    have hx5 : x5 < 256 := hb x5 (by simp)
    simp only [Attribute.write, List.length_take, Nat.min_eq_left hlen,
      writeU2_readU2 x0 x1 hx0 hx1, writeU4_readU4 x2 x3 x4 x5 hx2 hx3 hx4 hx5]
    simp [List.take_append_drop]
  · exact Option.noConfusion h

end Voc

namespace Voc

theorem readAttributes_spec (d : Option Nat) :
    ∀ (n : Nat) (b : List Nat) (attrs : List Attribute) (rest : List Nat),
    (∀ x ∈ b, x < 256) → readAttributes d n b = some (attrs, rest) →
    (attrs.map Attribute.write).flatten ++ rest = b ∧ attrs.length = n := by
  intro n
  induction n with
  | zero =>
    intro b attrs rest hb h
    simp only [readAttributes, Option.some.injEq, Prod.mk.injEq] at h
    obtain ⟨rfl, rfl⟩ := h
    simp
  | succ n ih =>
    intro b attrs rest hb h
    simp only [readAttributes] at h
    cases ha : Attribute.read b with
    | none => simp only [ha] at h; exact Option.noConfusion h
    | some p =>
      obtain ⟨a, b'⟩ := p
      simp only [ha] at h
      cases hr : readAttributes d n b' with
      | none => simp only [hr] at h; exact Option.noConfusion h
      | some q =>
        obtain ⟨attrs', rest'⟩ := q
        simp only [hr, Option.some.injEq, Prod.mk.injEq] at h
        obtain ⟨rfl, rfl⟩ := h
        have hwb : Attribute.write a ++ b' = b := Attribute.read_write b a b' hb ha
        have hb' : ∀ x ∈ b', x < 256 := by
          intro x hx
          exact hb x (by rw [← hwb]; exact List.mem_append_right _ hx)
        obtain ⟨hflat, hlen⟩ := ih b' attrs' rest' hb' hr
        constructor
        · simp only [List.map_cons, List.flatten_cons, List.append_assoc, hflat, hwb]
        · simp [hlen]

theorem readAttributes_dump_irrel (d d' : Option Nat) :
    ∀ (n : Nat) (b : List Nat), readAttributes d n b = readAttributes d' n b := by
  intro n
  induction n with
  | zero => intro b; rfl
  | succ n ih =>
    intro b
    simp only [readAttributes]
    cases Attribute.read b with
    | none => rfl
    | some p =>
      obtain ⟨a, b'⟩ := p
      dsimp only
      rw [ih]

theorem poolString_getElem (pool : ConstantPool) (i : Nat) (s : String)
    (h : poolString pool i = some s) : pool[i]? = some (PoolEntry.utf8 s) := by
  unfold poolString at h
  cases hg : pool[i]? with
  | none => rw [hg] at h; exact Option.noConfusion h
  | some e =>
    cases e with
    | utf8 t =>
      rw [hg] at h
      simp only [Option.some.injEq] at h
      rw [h]
    | other => rw [hg] at h; exact Option.noConfusion h

theorem poolIndexOf_of_getElem :
    ∀ (pool : ConstantPool) (i : Nat) (s : String),
    (∀ (i' j' : Nat) (s' : String), pool[i']? = some (PoolEntry.utf8 s') →
      pool[j']? = some (PoolEntry.utf8 s') → i' = j') →
    pool[i]? = some (PoolEntry.utf8 s) → poolIndexOf pool s = some i := by
  intro pool
  induction pool with
  | nil => intro i s _ h; simp at h
  | cons e rest ih =>
    intro i s hdedup h
    have hdedup' : ∀ (i' j' : Nat) (s' : String),
        rest[i']? = some (PoolEntry.utf8 s') →
        rest[j']? = some (PoolEntry.utf8 s') → i' = j' := by
      intro i' j' s' hi hj
      have := hdedup (i' + 1) (j' + 1) s' (by simpa using hi) (by simpa using hj)
      omega
    cases e with
    | other =>
      cases i with
      | zero => simp at h
      | succ i =>
        have h' : rest[i]? = some (PoolEntry.utf8 s) := by simpa using h
        simp [poolIndexOf, ih i s hdedup' h']
    | utf8 t =>
      by_cases ht : t = s
      · subst ht
        have h0 : (PoolEntry.utf8 t :: rest)[0]? = some (PoolEntry.utf8 t) := by simp
        have hi0 : i = 0 := hdedup i 0 t h h0
        subst hi0
        simp [poolIndexOf]
      · cases i with
        | zero =>
          simp only [List.getElem?_cons_zero, Option.some.injEq,
            PoolEntry.utf8.injEq] at h
          exact absurd h ht
        | succ i =>
          have h' : rest[i]? = some (PoolEntry.utf8 s) := by simpa using h
          simp [poolIndexOf, ht, ih i s hdedup' h']

end Voc

namespace Voc

theorem read_ok_elim (pool : ConstantPool) (dump : Option Nat) (b : List Nat)
    (m : Method) (out : List String) (rest : List Nat)
    (h : Method.read pool dump b = Except.ok (m, out, rest)) :
    ∃ (a0 a1 a2 a3 a4 a5 a6 a7 : Nat) (tail : List Nat)
      (name descriptor : String) (attrs : List Attribute),
      b = a0 :: a1 :: a2 :: a3 :: a4 :: a5 :: a6 :: a7 :: tail ∧
      poolString pool (a2 * 256 + a3) = some name ∧
      poolString pool (a4 * 256 + a5) = some descriptor ∧
      readAttributes (dump.map (· + 2)) (a6 * 256 + a7) tail =
        some (attrs, rest) ∧
      m = decodeMethod name descriptor (a0 * 256 + a1) attrs := by
  rcases b with _ | ⟨a0, _ | ⟨a1, _ | ⟨a2, _ | ⟨a3, _ | ⟨a4, _ | ⟨a5,
    _ | ⟨a6, _ | ⟨a7, tail⟩⟩⟩⟩⟩⟩⟩⟩ <;>
    simp only [Method.read, readU2] at h
  any_goals solve
    | exact Except.noConfusion h
    | (repeat' split at h) <;> exact Except.noConfusion h
  cases hn : poolString pool (a2 * 256 + a3) with
  | none => simp only [hn] at h; exact Except.noConfusion h
  | some name =>
    simp only [hn] at h
    cases hd : poolString pool (a4 * 256 + a5) with
    | none => simp only [hd] at h; exact Except.noConfusion h
    | some descriptor =>
      simp only [hd] at h
      cases hra : readAttributes (dump.map (· + 2)) (a6 * 256 + a7) tail with
      | none => simp only [hra] at h; exact Except.noConfusion h
      | some q =>
        obtain ⟨attrs, rest'⟩ := q
        simp only [hra, Except.ok.injEq, Prod.mk.injEq] at h
        obtain ⟨hm, -, hrest⟩ := h
        subst hrest
        exact ⟨a0, a1, a2, a3, a4, a5, a6, a7, tail, name, descriptor, attrs,
          rfl, hn, hd, hra, hm.symm⟩

end Voc

namespace Voc

/-- Constant pool used by the concrete examples: a UTF-8 name at index 0 and
a UTF-8 descriptor at index 1. -/
def cexPool : ConstantPool := [PoolEntry.utf8 "f", PoolEntry.utf8 "()V"]

/-- A method_info byte stream with flag word 0x0000 (package-private in the
class-file format), name index 0, descriptor index 1 and no attributes. -/
def cexBytes0 : List Nat := [0, 0, 0, 0, 0, 1, 0, 0]

/-- The record `Method.read` produces from `cexBytes0`: the constructor has
forced `public := true` although bit 0x0001 of the flag word was clear. -/
def mPkg : Method :=
  { name := "f", descriptor := "()V", public := true, «private» := false,
    «protected» := false, static := false, final := false,
    synchronized := false, bridge := false, varargs := false,
    native := false, abstract := false, strict := false, synthetic := false,
    attributes := [] }

theorem init_visibility_count (name descriptor : String)
    (public «private» «protected» static final synchronized bridge varargs
      native abstract strict synthetic : Bool) (attrs : List Attribute) :
    (Method.init name descriptor public «private» «protected» static final
        synchronized bridge varargs native abstract strict synthetic
        attrs).public.toNat +
      (Method.init name descriptor public «private» «protected» static final
        synchronized bridge varargs native abstract strict synthetic
        attrs).«private».toNat +
      (Method.init name descriptor public «private» «protected» static final
        synchronized bridge varargs native abstract strict synthetic
        attrs).«protected».toNat = 1 := by
  cases «private» <;> cases «protected» <;> simp [Method.init]

/-- C2 (corrected): flag-codec symmetry holds only for masks with exactly
one visibility bit.  For every 16-bit mask `m` that uses only the twelve
assigned flag bits (`m &&& 0x1DFF = m`) and has exactly one of the three
visibility bits 0x0001, 0x0002, 0x0004 set, decoding `m` into the twelve
booleans via the Method constructor and re-encoding via the `access_flags`
property yields `m` again. -/
theorem C2_flag_symmetry_amended (name descriptor : String)
    (attrs : List Attribute) (m : Nat) (honly : m &&& 7679 = m)
    (hvis : (m.testBit 0).toNat + (m.testBit 1).toNat +
      (m.testBit 2).toNat = 1) :
    (decodeMethod name descriptor m attrs).access_flags = m :=
  access_flags_decodeMethod name descriptor m attrs honly hvis

/-- C2 witness: the mask 0x0002 (private) round-trips through decode and
encode. -/
theorem C2_flag_symmetry_witness :
    (decodeMethod "f" "()V" 2 []).access_flags = 2 :=
  C2_flag_symmetry_amended "f" "()V" [] 2 (by decide) (by decide)

/-- C2 counterexample: the mask 0x0000 uses only assigned bits, yet
decode-then-encode yields 0x0001, because the constructor forces the public
flag whenever neither private nor protected is set. -/
theorem C2_counterexample :
    (0 : Nat) &&& 7679 = 0 ∧
    (decodeMethod "f" "()V" 0 []).access_flags = 1 ∧ (1 : Nat) ≠ 0 := by
  refine ⟨by decide, by decide, by decide⟩

/-- C3 (corrected): decoding a flag word sets the nine non-visibility flags
to true iff the corresponding reserved bit is set, but the three visibility
flags pass through the constructor's normalization: `private` is true iff
bit 0x0002 is set, `protected` iff bit 0x0004 is set and 0x0002 clear, and
`public` iff bits 0x0002 and 0x0004 are both clear — regardless of bit
0x0001. -/
theorem C3_decode_flags_amended (name descriptor : String) (f : Nat)
    (attrs : List Attribute) :
    (decodeMethod name descriptor f attrs).public =
      (!f.testBit 1 && !f.testBit 2) ∧
    (decodeMethod name descriptor f attrs).«private» = f.testBit 1 ∧
    (decodeMethod name descriptor f attrs).«protected» =
      (!f.testBit 1 && f.testBit 2) ∧
    (decodeMethod name descriptor f attrs).static = f.testBit 3 ∧
    (decodeMethod name descriptor f attrs).final = f.testBit 4 ∧
    (decodeMethod name descriptor f attrs).synchronized = f.testBit 5 ∧
    (decodeMethod name descriptor f attrs).bridge = f.testBit 6 ∧
    (decodeMethod name descriptor f attrs).varargs = f.testBit 7 ∧
    (decodeMethod name descriptor f attrs).native = f.testBit 8 ∧
    (decodeMethod name descriptor f attrs).abstract = f.testBit 10 ∧
    (decodeMethod name descriptor f attrs).strict = f.testBit 11 ∧
    (decodeMethod name descriptor f attrs).synthetic = f.testBit 12 := by
  obtain ⟨-, -, h1, h2, h3, h4, h5, h6, h7, h8, h9, h10, h11, h12, -⟩ :=
    decodeMethod_fields name descriptor f attrs
  exact ⟨h1, h2, h3, h4, h5, h6, h7, h8, h9, h10, h11, h12⟩

/-- C3 counterexample: reading a record whose flag word is 0x0000 yields a
record with `public = true` although bit 0x0001 of the input mask is not
set, refuting "public is true exactly when bit 0x0001 is set". -/
theorem C3_counterexample :
    Method.read cexPool none cexBytes0 = Except.ok (mPkg, [], []) ∧
    mPkg.public = true ∧ Nat.testBit 0 0 = false := by
  refine ⟨by decide, rfl, rfl⟩

/-- C4 (corrected): a record constructed with `abstract = true` and every
other flag argument false encodes to 0x0401, not 0x0400: the constructor
forces the public flag whenever private and protected are absent, so the
abstract bit is always accompanied by the public bit. -/
theorem C4_abstract_encoding_amended (name descriptor : String)
    (public : Bool) (attrs : List Attribute) :
    (Method.init name descriptor public false false false false false false
      false false true false false attrs).access_flags = 1025 := by
  simp [Method.init, Method.access_flags]
  decide

/-- C4 counterexample: with `abstract = true` and no other flags requested,
the encoded mask is 0x0401, which is not the claimed 0x0400. -/
theorem C4_counterexample :
    (Method.init "f" "()V" false false false false false false false false
      false true false false []).access_flags = 1025 ∧
    (1025 : Nat) ≠ 1024 := ⟨rfl, by decide⟩

/-- C5 (confirmed): for every Method record, the `access_flags` property is
exactly the bitwise OR of the reserved bit of each flag that is true, with
all other bits zero — stated per bit: bit i of `access_flags` is the flag
assigned to bit i in the spec's bit table, and false at every unassigned
position. -/
theorem C5_access_flags_bits (m : Method) (i : Nat) :
    m.access_flags.testBit i = accessFlagsSpecBit m i :=
  testBit_access_flags m i

/-- C6 (confirmed): the constructor normalizes the visibility flags by
priority — `private` is stored as given, `protected` survives only when
`private` is false, and `public` is true exactly when both `private` and
`protected` are false (so `private=protected=public=true` yields
`private=true, protected=false, public=false`, and `public` defaults to
true whenever neither `private` nor `protected` is requested). -/
theorem C6_visibility_normalization (name descriptor : String)
    (public «private» «protected» static final synchronized bridge varargs
      native abstract strict synthetic : Bool) (attrs : List Attribute) :
    (Method.init name descriptor public «private» «protected» static final
        synchronized bridge varargs native abstract strict synthetic
        attrs).«private» = «private» ∧
    (Method.init name descriptor public «private» «protected» static final
        synchronized bridge varargs native abstract strict synthetic
        attrs).«protected» = (!«private» && «protected») ∧
    (Method.init name descriptor public «private» «protected» static final
        synchronized bridge varargs native abstract strict synthetic
        attrs).public = (!«private» && !«protected») := by
  cases «private» <;> cases «protected» <;> simp [Method.init]

/-- C10 (confirmed): after the constructor returns — and hence after every
successful `Method.read` — exactly one of the three visibility flags is
true, never zero: `public` is forced true whenever `private` and
`protected` are both absent, so a package-private record cannot be built
through the constructor. -/
theorem C10_exactly_one_visibility :
    (∀ (name descriptor : String)
      (public «private» «protected» static final synchronized bridge varargs
        native abstract strict synthetic : Bool) (attrs : List Attribute),
      (Method.init name descriptor public «private» «protected» static final
          synchronized bridge varargs native abstract strict synthetic
          attrs).public.toNat +
        (Method.init name descriptor public «private» «protected» static
          final synchronized bridge varargs native abstract strict synthetic
          attrs).«private».toNat +
        (Method.init name descriptor public «private» «protected» static
          final synchronized bridge varargs native abstract strict synthetic
          attrs).«protected».toNat = 1) ∧
    (∀ (pool : ConstantPool) (dump : Option Nat) (b : List Nat)
      (r : Method × List String × List Nat),
      Method.read pool dump b = Except.ok r →
      r.1.public.toNat + r.1.«private».toNat + r.1.«protected».toNat = 1) := by
  constructor
  · exact init_visibility_count
  · intro pool dump b r h
    obtain ⟨m, out, rest⟩ := r
    obtain ⟨a0, a1, a2, a3, a4, a5, a6, a7, tail, name, descriptor, attrs,
      -, -, -, -, hm⟩ := read_ok_elim pool dump b m out rest h
    subst hm
    simp only [decodeMethod]
    exact init_visibility_count name descriptor _ _ _ _ _ _ _ _ _ _ _ _ attrs

/-- C10 witness: the record read from a stream with flag word 0x0000 has
exactly one visibility flag set. -/
theorem C10_exactly_one_visibility_witness :
    mPkg.public.toNat + mPkg.«private».toNat + mPkg.«protected».toNat = 1 :=
  C10_exactly_one_visibility.2 cexPool none cexBytes0 (mPkg, [], [])
    (by decide)

end Voc

namespace Voc

/-- C9 (confirmed): the record decoded by `Method.read` and the stream
position after it do not depend on the dump argument: the dump/tracing path
only contributes console lines, so reading with any two dump values yields
the same record and the same unconsumed rest (and hence the same bytes on a
later write). -/
theorem C9_dump_noninterference (pool : ConstantPool) (b : List Nat)
    (d1 d2 : Option Nat) :
    (Method.read pool d1 b).map (fun r => (r.1, r.2.2)) =
    (Method.read pool d2 b).map (fun r => (r.1, r.2.2)) := by
  unfold Method.read
  cases readU2 b with
  | none => rfl
  | some p =>
    obtain ⟨f, b1⟩ := p
    dsimp only
    cases readU2 b1 with
    | none => rfl
    | some p =>
      obtain ⟨ni, b2⟩ := p
      dsimp only
      cases poolString pool ni with
      | none => rfl
      | some name =>
        dsimp only
        cases readU2 b2 with
        | none => rfl
        | some p =>
          obtain ⟨di, b3⟩ := p
          dsimp only
          cases poolString pool di with
          | none => rfl
          | some descriptor =>
            dsimp only
            cases readU2 b3 with
            | none => rfl
            | some p =>
              obtain ⟨cnt, b4⟩ := p
              dsimp only
              rw [readAttributes_dump_irrel (d1.map (· + 2)) (d2.map (· + 2))]
              cases readAttributes (d2.map (· + 2)) cnt b4 with
              | none => rfl
              | some q => rfl

/-- C8 (confirmed, spec-modelled pool): when the name index, or the
descriptor index after a successful name lookup, is out of range of the
constant pool or does not reference a UTF-8 string entry, `Method.read`
fails with the LookupError-class `invalidReference` error and returns no
partial record. -/
theorem C8_invalid_reference (pool : ConstantPool) (dump : Option Nat)
    (b b1 b2 : List Nat) (f ni : Nat)
    (h1 : readU2 b = some (f, b1)) (h2 : readU2 b1 = some (ni, b2))
    (h3 : poolString pool ni = none ∨
      ∃ (s : String) (di : Nat) (b3 : List Nat),
        poolString pool ni = some s ∧ readU2 b2 = some (di, b3) ∧
        poolString pool di = none) :
    Method.read pool dump b = Except.error ReadError.invalidReference := by
  unfold Method.read
  rcases h3 with hn | ⟨s, di, b3, hs, h2', hdi⟩
  · simp [h1, h2, hn]
  · simp [h1, h2, hs, h2', hdi]

/-- C8 witness: pool of size 1, name index 50: `read` fails with the
invalid-reference error. -/
theorem C8_invalid_reference_witness :
    Method.read [PoolEntry.utf8 "f"] none [0, 0, 0, 50] =
      Except.error ReadError.invalidReference :=
  C8_invalid_reference [PoolEntry.utf8 "f"] none [0, 0, 0, 50] [0, 50] [] 0 50
    rfl rfl (Or.inl rfl)

/-- C7 (confirmed): a record read with attributes `[A, B, C]` emits them on
write in the same order: the bytes after the 8-byte header of the written
stream are the writes of `m.attributes` joined in list order, they agree
with the attribute region of the input stream, and both count fields equal
the list's current length. -/
theorem C7_attribute_order (pool pool2 : ConstantPool) (dump : Option Nat)
    (b : List Nat) (m : Method) (out : List String) (rest : List Nat)
    (w : List Nat) (hbytes : ∀ x ∈ b, x < 256)
    (hr : Method.read pool dump b = Except.ok (m, out, rest))
    (hw : Method.write pool2 m = some w) :
    w.drop 8 = (m.attributes.map Attribute.write).flatten ∧
    w.drop 8 ++ rest = b.drop 8 ∧
    (b.drop 6).take 2 = writeU2 m.attributes_count ∧
    (w.drop 6).take 2 = writeU2 m.attributes_count := by
  obtain ⟨a0, a1, a2, a3, a4, a5, a6, a7, tail, name, descriptor, attrs,
    hbeq, -, -, hra, hm⟩ := read_ok_elim pool dump b m out rest hr
  subst hbeq
  subst hm
  have htail : ∀ x ∈ tail, x < 256 := by
    intro x hx
    exact hbytes x (by simp [hx])
  obtain ⟨hflat, hlen⟩ := readAttributes_spec (dump.map (· + 2))
    (a6 * 256 + a7) tail attrs rest htail hra
  obtain ⟨-, -, -, -, -, -, -, -, -, -, -, -, -, -, hattrs⟩ :=
    decodeMethod_fields name descriptor (a0 * 256 + a1) attrs
  have h6 : a6 < 256 := hbytes a6 (by simp)
  have h7 : a7 < 256 := hbytes a7 (by simp)
  unfold Method.write at hw
  split at hw
  · exact Option.noConfusion hw
  · split at hw
    · exact Option.noConfusion hw
    · injection hw with hw'
      subst hw'
      refine ⟨?_, ?_, ?_, ?_⟩
      · simp [writeU2, hattrs]
      · simp [writeU2, hattrs, hflat]
      · simp [Method.attributes_count, hattrs, hlen,
          writeU2_readU2 a6 a7 h6 h7]
      · simp [writeU2]

/-- C1 (corrected): write-after-read reproduces the input bytes only when
the flag word survives the constructor's visibility normalization.  For
every byte stream `b` that `Method.read` fully consumes into a record
against a pool without duplicate UTF-8 entries, if `b`'s flag word uses
only the twelve assigned bits and has exactly one of the three visibility
bits set, then `Method.write` emits exactly `b`: same flag word, same name
and descriptor pool indices, same attribute count, same attribute bytes in
the same order. -/
theorem C1_round_trip_amended (pool : ConstantPool) (dump : Option Nat)
    (b : List Nat) (m : Method) (out : List String)
    (hbytes : ∀ x ∈ b, x < 256)
    (hdedup : ∀ (i j : Nat) (s : String),
      pool[i]? = some (PoolEntry.utf8 s) →
      pool[j]? = some (PoolEntry.utf8 s) → i = j)
    (hflag : ∀ (f : Nat) (r : List Nat), readU2 b = some (f, r) →
      f &&& 7679 = f ∧
      (f.testBit 0).toNat + (f.testBit 1).toNat + (f.testBit 2).toNat = 1)
    (hread : Method.read pool dump b = Except.ok (m, out, [])) :
    Method.write pool m = some b := by
  obtain ⟨a0, a1, a2, a3, a4, a5, a6, a7, tail, name, descriptor, attrs,
    hbeq, hn, hd, hra, hm⟩ := read_ok_elim pool dump b m out [] hread
  subst hbeq
  subst hm
  obtain ⟨honly, hvis⟩ := hflag (a0 * 256 + a1) _ rfl
  have htail : ∀ x ∈ tail, x < 256 := by
    intro x hx
    exact hbytes x (by simp [hx])
  obtain ⟨hflat, hlen⟩ := readAttributes_spec (dump.map (· + 2))
    (a6 * 256 + a7) tail attrs [] htail hra
  rw [List.append_nil] at hflat
  obtain ⟨hname, hdesc, -, -, -, -, -, -, -, -, -, -, -, -, hattrs⟩ :=
    decodeMethod_fields name descriptor (a0 * 256 + a1) attrs
  have hni : poolIndexOf pool name = some (a2 * 256 + a3) :=
    poolIndexOf_of_getElem pool (a2 * 256 + a3) name hdedup
      (poolString_getElem pool (a2 * 256 + a3) name hn)
  have hdi : poolIndexOf pool descriptor = some (a4 * 256 + a5) :=
    poolIndexOf_of_getElem pool (a4 * 256 + a5) descriptor hdedup
      (poolString_getElem pool (a4 * 256 + a5) descriptor hd)
  have h0 : a0 < 256 := hbytes a0 (by simp)
  have h1 : a1 < 256 := hbytes a1 (by simp)
  have h2 : a2 < 256 := hbytes a2 (by simp)
  have h3 : a3 < 256 := hbytes a3 (by simp)
  have h4 : a4 < 256 := hbytes a4 (by simp)
  have h5 : a5 < 256 := hbytes a5 (by simp)
  have h6 : a6 < 256 := hbytes a6 (by simp)
  have h7 : a7 < 256 := hbytes a7 (by simp)
  unfold Method.write
  simp only [hname, hdesc, hni, hdi]
  rw [access_flags_decodeMethod name descriptor (a0 * 256 + a1) attrs honly
    hvis]
  simp only [Method.attributes_count, hattrs, hlen]
  rw [writeU2_readU2 a0 a1 h0 h1, writeU2_readU2 a2 a3 h2 h3,
    writeU2_readU2 a4 a5 h4 h5, writeU2_readU2 a6 a7 h6 h7, hflat]
  simp

end Voc

namespace Voc

/-- A well-formed method_info stream: flag word 0x0001 (public), name index
0, descriptor index 1, one attribute (name index 0, payload length 1, one
payload byte 0xAB). -/
def cexBytes1 : List Nat :=
  [0, 1, 0, 0, 0, 1, 0, 1, 0, 0, 0, 0, 0, 1, 171]

/-- The record `Method.read` produces from `cexBytes1`. -/
def mCex1 : Method :=
  { name := "f", descriptor := "()V", public := true, «private» := false,
    «protected» := false, static := false, final := false,
    synchronized := false, bridge := false, varargs := false,
    native := false, abstract := false, strict := false, synthetic := false,
    attributes := [⟨0, [171]⟩] }

/-- C1 witness: reading `cexBytes1` (public flag only, one attribute) and
writing the result against the same pool reproduces the bytes exactly. -/
theorem C1_round_trip_witness : Method.write cexPool mCex1 = some cexBytes1 :=
  C1_round_trip_amended cexPool none cexBytes1 mCex1 []
    (by decide)
    (by
      intro i j s hi hj
      rcases i with _ | _ | i <;> rcases j with _ | _ | j <;>
        (try simp_all [cexPool]) <;>
        exact absurd (hi.trans hj.symm) (by decide))
    (by
      intro f r h
      simp only [cexBytes1, readU2, Option.some.injEq, Prod.mk.injEq] at h
      obtain ⟨hf, -⟩ := h
      subst hf
      decide)
    (by decide)

/-- C1 counterexample: the valid stream `cexBytes0` (flag word 0x0000,
package-private) reads successfully, but writing the record back emits flag
word 0x0001: `write(read(b))` differs from `b` in the flag word. -/
theorem C1_counterexample :
    Method.read cexPool none cexBytes0 = Except.ok (mPkg, [], []) ∧
    Method.write cexPool mPkg = some [0, 1, 0, 0, 0, 1, 0, 0] ∧
    ([0, 1, 0, 0, 0, 1, 0, 0] : List Nat) ≠ cexBytes0 := by
  refine ⟨by decide, by decide, by decide⟩

/-- C7 witness: for `cexBytes1` the attribute region and both count fields
agree between the input stream and the written stream. -/
theorem C7_attribute_order_witness :
    cexBytes1.drop 8 = (mCex1.attributes.map Attribute.write).flatten ∧
    cexBytes1.drop 8 ++ [] = cexBytes1.drop 8 ∧
    (cexBytes1.drop 6).take 2 = writeU2 mCex1.attributes_count ∧
    (cexBytes1.drop 6).take 2 = writeU2 mCex1.attributes_count :=
  C7_attribute_order cexPool cexPool none cexBytes1 mCex1 [] [] cexBytes1
    (by decide) (by decide) (by decide)

end Voc
